import Mathlib

/-!
# Verification of the S&P 500 Stooq downloader scripts

A shallow embedding of the two pipeline scripts of this repository:

* `sp500-stooq-downloader.py` — resolve the ticker list, fetch one CSV per
  ticker from Stooq, accumulate, deduplicate, sort, narrow dtypes, save.
* `get_sp500_weightings.py` — fetch the SPY holdings spreadsheet, extract the
  `Ticker`/`Weight` columns, optionally normalise, reset the index, save.

Network responses, the CSV body parser and the Excel parser are modelled as
explicit inputs (the scripts treat them as opaque library calls); everything
the scripts themselves do to the data is embedded as executable functions.
-/

instance {ε α : Type} [DecidableEq ε] [DecidableEq α] : DecidableEq (Except ε α) := fun a b =>
  match a, b with
  | .error e, .error f =>
    if h : e = f then .isTrue (congrArg Except.error h)
    else .isFalse (fun c => h (Except.error.inj c))
  | .ok x, .ok y =>
    if h : x = y then .isTrue (congrArg Except.ok h)
    else .isFalse (fun c => h (Except.ok.inj c))
  | .error _, .ok _ => .isFalse (fun c => Except.noConfusion c)
  | .ok _, .error _ => .isFalse (fun c => Except.noConfusion c)

/- ------------------------------------------------------------------ -/
/- Characters, digit strings and dates                                 -/
/- ------------------------------------------------------------------ -/

/-- Numeric value of an ASCII digit character (`'0'` ↦ 0, …, `'9'` ↦ 9). -/
def charVal (c : Char) : Nat := c.toNat - 48

/-- Positional base-10 value of a character list: each character contributes
`charVal` at its decimal place.  On `"YYYY-MM-DD"` shaped lists the dashes
contribute 0, so the value is `Y * 10^6 + M * 10^3 + D`. -/
def strVal : List Char → Nat
  | [] => 0
  | c :: cs => charVal c * 10 ^ cs.length + strVal cs

/-- Two characters that may face each other at the same position of two
date strings of the same layout: either both digits, or both `'-'`. -/
def okPair (c d : Char) : Prop :=
  (c.isDigit = true ∧ d.isDigit = true) ∨ (c = '-' ∧ d = '-')

/-- `"YYYY-MM-DD"` layout: ten characters, digits except dashes at
positions 4 and 7. -/
def isoShape : List Char → Bool
  | [a, b, c, d, e, f, g, h, i, j] =>
    a.isDigit && b.isDigit && c.isDigit && d.isDigit && (e == '-') &&
    f.isDigit && g.isDigit && (h == '-') && i.isDigit && j.isDigit
  | _ => false

/-- Is the string an ISO `YYYY-MM-DD` date string? -/
def isIsoDate (s : String) : Bool := isoShape s.toList

/-- Read the calendar fields `(year, month, day)` of an ISO `YYYY-MM-DD`
string; `(0, 0, 0)` for any other layout. -/
def isoDateYMD (s : String) : Nat × Nat × Nat :=
  match s.toList with
  | [a, b, c, d, _, e, f, _, g, h] =>
    (((charVal a * 10 + charVal b) * 10 + charVal c) * 10 + charVal d,
      charVal e * 10 + charVal f, charVal g * 10 + charVal h)
  | _ => (0, 0, 0)

/-- Read the calendar fields `(year, month, day)` of a US-layout
`MM-DD-YYYY` string; `(0, 0, 0)` for any other layout. -/
def usDateYMD (s : String) : Nat × Nat × Nat :=
  match s.toList with
  | [a, b, _, c, d, _, e, f, g, h] =>
    (((charVal e * 10 + charVal f) * 10 + charVal g) * 10 + charVal h,
      charVal a * 10 + charVal b, charVal c * 10 + charVal d)
  | _ => (0, 0, 0)

/-- Chronological (lexicographic) strict order on `(year, month, day)`. -/
def ymdLT (a b : Nat × Nat × Nat) : Prop :=
  a.1 < b.1 ∨ (a.1 = b.1 ∧ (a.2.1 < b.2.1 ∨ (a.2.1 = b.2.1 ∧ a.2.2 < b.2.2)))

/-- Chronological (lexicographic) order on `(year, month, day)`. -/
def ymdLE (a b : Nat × Nat × Nat) : Prop :=
  a.1 < b.1 ∨ (a.1 = b.1 ∧ (a.2.1 < b.2.1 ∨ (a.2.1 = b.2.1 ∧ a.2.2 ≤ b.2.2)))

instance : DecidableRel ymdLT := fun a b => by unfold ymdLT; infer_instance

instance : DecidableRel ymdLE := fun a b => by unfold ymdLE; infer_instance

/-- Lexicographic strict order on strings, stated on the character lists
(`String.lt_iff_toList_lt` identifies it with `<` on `String`). -/
def strLt (s t : String) : Prop := s.toList < t.toList

/-- Lexicographic order on strings, stated on the character lists. -/
def strLe (s t : String) : Prop := ¬ t.toList < s.toList

instance : DecidableRel strLt := fun s t => by
  unfold strLt; exact List.Lex.decidableRel _ _ _

instance : DecidableRel strLe := fun s t => by
  unfold strLe; exact instDecidableNot

/-- Substring containment, used for the rate-limit marker test
(`"..." in r.text`) and for facts about diagnostic messages. -/
def containsStr (pat s : String) : Prop := pat.toList <:+: s.toList

instance : ∀ pat s, Decidable (containsStr pat s) := fun pat s => by
  unfold containsStr; infer_instance

/- ------------------------------------------------------------------ -/
/- A model of numpy float32 narrowing                                  -/
/- ------------------------------------------------------------------ -/

/-- Number of binary digits of `n` (`0` for `0`).  Fuel-based so that the
kernel can evaluate it; the fuel `n` always suffices. -/
def bitlenAux : Nat → Nat → Nat
  | 0, _ => 0
  | fuel + 1, n => if n = 0 then 0 else bitlenAux fuel (n / 2) + 1

/-- Number of binary digits of `n`. -/
def bitlen (n : Nat) : Nat := bitlenAux n n

/-- `⌊log₂ (n / d)⌋` for positive naturals `n`, `d`. -/
def floorLog2Frac (n d : Nat) : Int :=
  let k : Int := (bitlen n : Int) - (bitlen d : Int)
  if 0 ≤ k then (if d * 2 ^ k.toNat ≤ n then k else k - 1)
  else (if d ≤ n * 2 ^ (-k).toNat then k else k - 1)

/-- Round `N / D` (`D > 0`) to the nearest natural, ties to even. -/
def rheFrac (N D : Nat) : Nat :=
  let q := N / D
  let r := N % D
  if 2 * r < D then q
  else if D < 2 * r then q + 1
  else if q % 2 = 0 then q else q + 1

/-- Model of `numpy`'s `astype("float32")` on an exact rational value:
round to a 24-bit significand at the value's binary exponent, ties to even
(IEEE-754 round-to-nearest-even).  Finite-range behaviour only: overflow to
infinity and subnormal underflow are outside the price data's range and are
not modelled. -/
def toFloat32 (x : Rat) : Rat :=
  if x.num = 0 then 0
  else
    let n := x.num.natAbs
    let d := x.den
    let s := floorLog2Frac n d - 23
    let m := if 0 ≤ s then rheFrac n (d * 2 ^ s.toNat) else rheFrac (n * 2 ^ (-s).toNat) d
    let mag := if 0 ≤ s then mkRat ((m * 2 ^ s.toNat : Nat) : Int) 1 else mkRat (m : Int) (2 ^ (-s).toNat)
    if x.num < 0 then mkRat (-mag.num) mag.den else mag

/- ------------------------------------------------------------------ -/
/- Shared HTTP model                                                   -/
/- ------------------------------------------------------------------ -/

/-- Outcome of `requests.get`: either a response with a status code and a
body, or a raised `requests.RequestException` (connectivity/timeout). -/
inductive HttpResult where
  | resp (status : Nat) (body : String)
  | exn
deriving DecidableEq

/- ------------------------------------------------------------------ -/
/- sp500-stooq-downloader.py                                           -/
/- ------------------------------------------------------------------ -/

/-- One row of the price dataset before dtype narrowing: the `Date` cell as
the CSV string, the `Close` cell at full (float64, here exact rational)
precision, and the stamped `Symbol`. -/
structure PriceRow where
  date : String
  close : Rat
  symbol : String
deriving DecidableEq

/-- `WIKI_SP500_URL` table, symbol column → ticker list:
`.str.replace(".", "-", regex=False).str.upper()`.  Both operations are
per-character (the pattern and the replacement are single characters). -/
def normalizeSymbol (s : String) : String :=
  String.mk (s.toList.map (fun c => Char.toUpper (if c = '.' then '-' else c)))

/-- `get_sp500_tickers`, as a function of the symbol column of the first
table of the reference page. -/
def get_sp500_tickers (symbolColumn : List String) : List String :=
  symbolColumn.map normalizeSymbol

/-- The provider's rate-limit marker looked up in the response text. -/
def RATE_LIMIT_MARKER : String := "Exceeded the daily hits limit"

/-- Error raised by `pd.read_csv(..., usecols=["Date", "Close"])` when the
body does not provide the requested columns.  It is not a
`requests.RequestException`, so the `except` clause does not catch it. -/
inductive PError where
  | missingColumns
deriving DecidableEq

/-- `fetch_stooq_csv`.  `parseCsv` models `pd.read_csv` restricted to the
`Date`/`Close` columns: `none` when the expected columns are absent (the
parser raises), `some table` otherwise.  The function returns `.ok none`
(Python `None`) on a non-200 status, on the rate-limit marker, or on a
network exception; a parser error propagates as `.error`. -/
def fetch_stooq_csv (parseCsv : String → Option (List (String × Rat)))
    (net : HttpResult) (symbol : String) : Except PError (Option (List PriceRow)) :=
  match net with
  | .exn => .ok none
  | .resp status body =>
    if status ≠ 200 ∨ containsStr RATE_LIMIT_MARKER body then .ok none
    else
      match parseCsv body with
      | none => .error .missingColumns
      | some table => .ok (some (table.map (fun p => ⟨p.1, p.2, symbol⟩)))

/-- The accumulation loop of `build_dataset`: fetch every ticker in order,
keep the frames that are neither `None` nor empty, propagate a parser
error. -/
def collectFrames (fetch : String → Except PError (Option (List PriceRow))) :
    List String → Except PError (List (List PriceRow))
  | [] => .ok []
  | sym :: rest =>
    match fetch sym with
    | .error e => .error e
    | .ok odf =>
      match collectFrames fetch rest with
      | .error e => .error e
      | .ok frames =>
        match odf with
        | some df => .ok (if df.isEmpty then frames else df :: frames)
        | none => .ok frames

/-- `drop_duplicates` (pandas): keep the first row carrying each distinct
`(Date, Close, Symbol)` value, in order; indices travel with their rows. -/
def dropDupsAux (seen : List PriceRow) : List (Nat × PriceRow) → List (Nat × PriceRow)
  | [] => []
  | p :: rest =>
    if p.2 ∈ seen then dropDupsAux seen rest
    else p :: dropDupsAux (p.2 :: seen) rest

/-- `DataFrame.drop_duplicates()` on the indexed row list. -/
def drop_duplicates (l : List (Nat × PriceRow)) : List (Nat × PriceRow) :=
  dropDupsAux [] l

/-- Sort key of `sort_values(["Symbol", "Date"])`: symbol first
(lexicographic), then the `Date` string (lexicographic). -/
def rowLE (a b : PriceRow) : Prop :=
  strLt a.symbol b.symbol ∨ (a.symbol = b.symbol ∧ strLe a.date b.date)

/-- `rowLE` on indexed rows (the index is not part of the key). -/
def rowKeyLE (a b : Nat × PriceRow) : Prop := rowLE a.2 b.2

instance : DecidableRel rowLE := fun a b => by unfold rowLE; infer_instance

instance : DecidableRel rowKeyLE := fun a b => by unfold rowKeyLE rowLE; infer_instance

/-- `DataFrame.sort_values(["Symbol", "Date"])` on the indexed row list. -/
def sort_values (l : List (Nat × PriceRow)) : List (Nat × PriceRow) :=
  List.insertionSort rowKeyLE l

/-- `DataFrame.reset_index(drop=True)`: drop the travelling index and
re-number the rows from zero. -/
def reset_index (l : List (Nat × PriceRow)) : List (Nat × PriceRow) :=
  (l.map Prod.snd).enum

/-- `pd.to_datetime` on the date strings the provider serves, modelled as
the positional value of the string.  On ISO `YYYY-MM-DD` strings this is the
number `YYYY * 10^6 + MM * 10^3 + DD`: an injective, order-preserving image
of the calendar date — the properties of `datetime64` the pipeline uses. -/
def to_datetime (s : String) : Nat := strVal s.toList

/-- One row after the dtype-narrowing step: `datetime64` date, dictionary
encoded symbol (same string value) and `float32` close. -/
structure NarrowRow where
  date : Nat
  close : Rat
  symbol : String
deriving DecidableEq

/-- Step 6 of the pipeline, applied to one row. -/
def narrowRow (r : PriceRow) : NarrowRow :=
  ⟨to_datetime r.date, toFloat32 r.close, r.symbol⟩

/-- The failure modes of a `build_dataset` run. -/
inductive BuildError where
  | parseFailure (e : PError)
  | emptyResult (msg : String)
deriving DecidableEq

/-- The diagnostic message of the fatal `RuntimeError`. -/
def EMPTY_MSG : String := "No data downloaded — check connectivity or rate limits."

/-- `pd.concat(ignore_index) → drop_duplicates → sort_values → reset_index`
on the collected frames. -/
def postprocess (frames : List (List PriceRow)) : List (Nat × PriceRow) :=
  reset_index (sort_values (drop_duplicates frames.flatten.enum))

/-- `build_dataset`: run the loop, fail fatally when nothing was collected,
otherwise post-process and narrow the dtypes. -/
def build_dataset (fetch : String → Except PError (Option (List PriceRow)))
    (tickers : List String) : Except BuildError (List (Nat × NarrowRow)) :=
  match collectFrames fetch tickers with
  | .error e => .error (.parseFailure e)
  | .ok frames =>
    if frames.isEmpty then .error (.emptyResult EMPTY_MSG)
    else .ok ((postprocess frames).map (fun p => (p.1, narrowRow p.2)))

/-- Output path of the price pipeline. -/
def OUT_PATH : String := "data/raw/sp500_daily_close.parquet"

/-- `main` of the price script: build the dataset, then `save_parquet` it;
a successful run is the written file (path and contents), an error aborts
before anything is written. -/
def stooq_main (fetch : String → Except PError (Option (List PriceRow)))
    (tickers : List String) : Except BuildError (String × List (Nat × NarrowRow)) :=
  match build_dataset fetch tickers with
  | .error e => .error e
  | .ok df => .ok (OUT_PATH, df)

/- ------------------------------------------------------------------ -/
/- get_sp500_weightings.py                                             -/
/- ------------------------------------------------------------------ -/

namespace Weights

/-- A spreadsheet cell: text or an exact numeric value. -/
inductive Cell where
  | str (s : String)
  | num (q : Rat)
deriving DecidableEq

/-- Column label carried by a header cell.  Non-text labels can never match
the string labels `"Ticker"`/`"Weight"` that the script selects, which is
all the pipeline observes of them. -/
def cellLabel : Cell → String
  | .str s => s
  | .num _ => "#num"

/-- Model of a pandas `DataFrame`: column labels, the row index, and the
row-major cells. -/
structure Frame where
  cols : List String
  index : List Nat
  rows : List (List Cell)
deriving DecidableEq

/-- `pd.read_excel(sheet_name=0, skiprows, nrows)`: drop `skiprows` leading
rows of the first sheet, read the next row as the header, then at most
`nrows` data rows, with a fresh zero-based index. -/
def read_excel (sheet : List (List Cell)) (skiprows nrows : Nat) : Frame :=
  match sheet.drop skiprows with
  | [] => ⟨[], [], []⟩
  | header :: body =>
    ⟨header.map cellLabel, List.range (body.take nrows).length, body.take nrows⟩

/-- Positions of every column carrying a given label, scanning from
position `i`. -/
def colIdxsAux (i : Nat) : List String → String → List Nat
  | [], _ => []
  | c :: cs, name =>
    if c = name then i :: colIdxsAux (i + 1) cs name else colIdxsAux (i + 1) cs name

/-- Positions of every column carrying a given label. -/
def colIdxs (cols : List String) (name : String) : List Nat := colIdxsAux 0 cols name

/-- `df[["Ticker", "Weight"]]`: label-based column projection.  Pandas
raises a `KeyError` (here `none`) when any requested label is absent;
otherwise every column carrying a requested label is kept, in request
order, each selected column labelled by the label it matched. -/
def selectCols (f : Frame) (names : List String) : Option Frame :=
  if names.all (fun n => f.cols.contains n) then
    let idxs := (names.map (colIdxs f.cols)).flatten
    some ⟨(names.map (fun n => (colIdxs f.cols n).map (fun _ => n))).flatten, f.index,
      f.rows.map (fun r => idxs.map (fun i => r.getD i (Cell.str "")))⟩
  else none

/-- Division of an exact rational by 100, in a kernel-computable form
(`divBy100_eq` below identifies it with `q / 100`). -/
def divBy100 (q : Rat) : Rat := mkRat q.num (q.den * 100)

/-- `series / 100` on one cell.  The weight column of a valid sheet is
numeric; a text cell is returned unchanged (pandas would raise — no claim
touches that case). -/
def div100 : Cell → Cell
  | .num q => .num (divBy100 q)
  | .str s => .str s

/-- `df["Weight"] = df["Weight"] / 100`: divide every cell sitting under a
`"Weight"` label by 100. -/
def normaliseWeights (f : Frame) : Frame :=
  ⟨f.cols, f.index,
    f.rows.map (fun r => (f.cols.zip r).map (fun p => if p.1 = "Weight" then div100 p.2 else p.2))⟩

/-- `DataFrame.reset_index(drop=True)`. -/
def reset_index (f : Frame) : Frame := ⟨f.cols, List.range f.rows.length, f.rows⟩

/-- The failure modes of the weightings pipeline. -/
inductive WError where
  | httpError (status : Nat)
  | requestError
  | keyError
deriving DecidableEq

/-- `resp.raise_for_status()`: raises exactly on a 4xx/5xx status. -/
def raise_for_status (status : Nat) : Except WError Unit :=
  if 400 ≤ status then .error (.httpError status) else .ok ()

/-- `download_excel`: `requests.get` then `raise_for_status`, returning the
raw response body.  The body is never inspected. -/
def download_excel (net : HttpResult) : Except WError String :=
  match net with
  | .exn => .error .requestError
  | .resp status body =>
    match raise_for_status status with
    | .error e => .error e
    | .ok _ => .ok body

/-- The declared ticker column-name candidates (module-level constant). -/
def TICKER_COL_CANDIDATES : List String := ["ticker", "ticker symbol", "symbol"]

/-- The declared weight column-name candidates (module-level constant). -/
def WEIGHT_COL_CANDIDATES : List String := ["weight (%)", "weight", "weight_percent"]

/-- Module-level `NORMALISE_WEIGHT` constant. -/
def NORMALISE_WEIGHT : Bool := false

/-- Default of the `skip_first` parameter (the banner of the source file). -/
def SKIP_FIRST : Nat := 4

/-- Default of the `rows_to_read` parameter. -/
def ROWS_TO_READ : Nat := 504

/-- `load_spy_weights`: download, parse the sheet (`excelParse` models
`openpyxl` turning the raw bytes into the first worksheet's rows), read
with `skiprows`/`nrows`, select the literal `Ticker`/`Weight` columns,
optionally normalise, reset the index. -/
def load_spy_weights (excelParse : String → List (List Cell)) (net : HttpResult)
    (normalise : Bool) (skip_first : Nat) (rows_to_read : Nat) :
    Except WError Frame :=
  match download_excel net with
  | .error e => .error e
  | .ok raw_bytes =>
    match selectCols (read_excel (excelParse raw_bytes) skip_first rows_to_read)
        ["Ticker", "Weight"] with
    | none => .error .keyError
    | some df => .ok (reset_index (if normalise then normaliseWeights df else df))

/-- Output path of the weightings pipeline. -/
def OUTPUT_PATH : String := "data/raw/sp500_weightings.csv"

/-- The script body: load with the module defaults and write the CSV; a
successful run is the written file, an error aborts before writing. -/
def script_main (excelParse : String → List (List Cell)) (net : HttpResult) :
    Except WError (String × Frame) :=
  match load_spy_weights excelParse net NORMALISE_WEIGHT SKIP_FIRST ROWS_TO_READ with
  | .error e => .error e
  | .ok df => .ok (OUTPUT_PATH, df)

end Weights

/- ------------------------------------------------------------------ -/
/- Concrete runs used by scenarios, counterexamples and witnesses      -/
/- ------------------------------------------------------------------ -/

/-- Network of the two-ticker scenario: AAA answers 200 with a CSV body,
BBB's request raises. -/
def scenarioNet (sym : String) : HttpResult :=
  if sym = "AAA" then .resp 200 "csvAAA" else .exn

/-- CSV parser of the two-ticker scenario: AAA's body parses to the two
dated closes 10.0 and 10.5. -/
def scenarioCsv (body : String) : Option (List (String × Rat)) :=
  if body = "csvAAA" then some [("2024-01-02", 10), ("2024-01-03", mkRat 21 2)] else none

/-- Per-ticker fetch of the two-ticker scenario. -/
def scenarioFetch (sym : String) : Except PError (Option (List PriceRow)) :=
  fetch_stooq_csv scenarioCsv (scenarioNet sym) sym

/-- A fetch whose single frame holds two rows of the same symbol and date
whose closes `2^25` and `2^25 + 1` are distinct at full precision but have
the same nearest float32. -/
def collisionFetch (_sym : String) : Except PError (Option (List PriceRow)) :=
  .ok (some [⟨"2024-01-02", mkRat 33554432 1, "AAA"⟩, ⟨"2024-01-02", mkRat 33554433 1, "AAA"⟩])

/-- A fetch whose single frame carries `MM-DD-YYYY` date strings — a
layout on which lexicographic string order disagrees with calendar
order. -/
def usDatesFetch (_sym : String) : Except PError (Option (List PriceRow)) :=
  .ok (some [⟨"12-31-2023", 10, "AAA"⟩, ⟨"01-05-2024", 10, "AAA"⟩])

/-- A fetch whose every ticker fails at the network level. -/
def allFailFetch (sym : String) : Except PError (Option (List PriceRow)) :=
  fetch_stooq_csv (fun _ => none) .exn sym

/-- A fetch that gets a clean 200 whose body lacks the expected columns. -/
def badColumnsFetch (sym : String) : Except PError (Option (List PriceRow)) :=
  fetch_stooq_csv (fun _ => none) (.resp 200 "no such columns") sym

/-- A well-formed worksheet: four banner rows, the header, two holdings. -/
def goodSheet : List (List Weights.Cell) :=
  [[.str "banner"], [.str "banner"], [.str "banner"], [.str "banner"],
    [.str "Ticker", .str "Weight"],
    [.str "AAPL", .num 7], [.str "MSFT", .num (mkRat 13 2)]]

/-- A worksheet whose header uses candidate names (`symbol`,
`weight (%)`) instead of the literal `Ticker`/`Weight`. -/
def altNamesSheet : List (List Weights.Cell) :=
  [[.str "banner"], [.str "banner"], [.str "banner"], [.str "banner"],
    [.str "symbol", .str "weight (%)"],
    [.str "AAPL", .num 7]]

/- ------------------------------------------------------------------ -/
/- Character and digit-string lemmas                                   -/
/- ------------------------------------------------------------------ -/

theorem char_toNat_inj {c d : Char} (h : c.toNat = d.toNat) : c = d :=
  Char.le_antisymm (Nat.le_of_eq h) (Nat.le_of_eq h.symm)

theorem digit_bounds {c : Char} (h : c.isDigit = true) : 48 ≤ c.toNat ∧ c.toNat ≤ 57 := by
  simpa [Char.isDigit] using h

theorem charVal_le_nine {c : Char} (h : c.isDigit = true) : charVal c ≤ 9 := by
  have := digit_bounds h
  unfold charVal
  omega

theorem charVal_dash : charVal '-' = 0 := by decide

theorem digit_lt_iff {c d : Char} (hc : c.isDigit = true) (hd : d.isDigit = true) :
    c < d ↔ charVal c < charVal d := by
  have h1 := digit_bounds hc
  have h2 := digit_bounds hd
  show c.toNat < d.toNat ↔ _
  unfold charVal
  omega

theorem digit_eq_iff {c d : Char} (hc : c.isDigit = true) (hd : d.isDigit = true) :
    c = d ↔ charVal c = charVal d := by
  constructor
  · intro h
    rw [h]
  · intro h
    have h1 := digit_bounds hc
    have h2 := digit_bounds hd
    unfold charVal at h
    exact char_toNat_inj (by omega)

theorem consLtIff (c d : Char) (cs ds : List Char) :
    (c :: cs) < (d :: ds) ↔ (c < d ∨ (c = d ∧ cs < ds)) := by
  show List.Lex _ _ _ ↔ _
  constructor
  · intro h
    cases h with
    | cons h => exact Or.inr ⟨rfl, h⟩
    | rel h => exact Or.inl h
  · rintro (h | ⟨rfl, h⟩)
    · exact List.Lex.rel h
    · exact List.Lex.cons h

theorem mulAddLtIff {B cv dv x y : Nat} (hx : x < B) (hy : y < B) :
    cv * B + x < dv * B + y ↔ (cv < dv ∨ (cv = dv ∧ x < y)) := by
  constructor
  · intro h
    rcases Nat.lt_trichotomy cv dv with hlt | heq | hgt
    · exact Or.inl hlt
    · subst heq
      exact Or.inr ⟨rfl, by omega⟩
    · exfalso
      have h1 : (dv + 1) * B ≤ cv * B := Nat.mul_le_mul_right B hgt
      have h2 : (dv + 1) * B = dv * B + B := by ring
      omega
  · rintro (hlt | ⟨rfl, hxy⟩)
    · have h1 : (cv + 1) * B ≤ dv * B := Nat.mul_le_mul_right B hlt
      have h2 : (cv + 1) * B = cv * B + B := by ring
      omega
    · omega

theorem okPair_le_nine {c d : Char} (h : okPair c d) : charVal c ≤ 9 ∧ charVal d ≤ 9 := by
  rcases h with ⟨hc, hd⟩ | ⟨hc, hd⟩
  · exact ⟨charVal_le_nine hc, charVal_le_nine hd⟩
  · subst hc; subst hd
    exact ⟨by decide, by decide⟩

theorem strVal_bounds {cs ds : List Char} (h : List.Forall₂ okPair cs ds) :
    strVal cs < 10 ^ cs.length ∧ strVal ds < 10 ^ ds.length := by
  induction h with
  | nil => simp [strVal]
  | @cons c d cs ds hcd htl ih =>
    have hcv := okPair_le_nine hcd
    have step : ∀ (e : Char) (l : List Char), charVal e ≤ 9 → strVal l < 10 ^ l.length →
        strVal (e :: l) < 10 ^ (e :: l).length := by
      intro e l he hl
      show charVal e * 10 ^ l.length + strVal l < 10 ^ (l.length + 1)
      have h1 : (charVal e + 1) * 10 ^ l.length ≤ 10 * 10 ^ l.length :=
        Nat.mul_le_mul_right _ (by omega)
      have h2 : (charVal e + 1) * 10 ^ l.length = charVal e * 10 ^ l.length + 10 ^ l.length := by
        ring
      have h3 : 10 ^ (l.length + 1) = 10 * 10 ^ l.length := by ring
      omega
    exact ⟨step c cs hcv.1 ih.1, step d ds hcv.2 ih.2⟩

theorem lex_lt_iff_strVal {l1 l2 : List Char} (h : List.Forall₂ okPair l1 l2) :
    l1 < l2 ↔ strVal l1 < strVal l2 := by
  induction h with
  | nil =>
    constructor
    · intro h
      exact absurd h (List.Lex.not_nil_right _ _)
    · intro h
      simp [strVal] at h
  | @cons c d cs ds hcd htl ih =>
    rw [consLtIff]
    have hlen := htl.length_eq
    have hbounds := strVal_bounds htl
    have hcsb : strVal cs < 10 ^ ds.length := hlen ▸ hbounds.1
    show _ ↔ charVal c * 10 ^ cs.length + strVal cs < charVal d * 10 ^ ds.length + strVal ds
    rw [hlen]
    rw [mulAddLtIff hcsb hbounds.2]
    rcases hcd with ⟨hcdig, hddig⟩ | ⟨hc, hd⟩
    · rw [digit_lt_iff hcdig hddig, digit_eq_iff hcdig hddig, ih]
    · subst hc; subst hd
      rw [charVal_dash, ih]
      constructor
      · rintro (h | ⟨-, h⟩)
        · exact absurd h (lt_irrefl _)
        · exact Or.inr ⟨rfl, h⟩
      · rintro (h | ⟨-, h⟩)
        · exact absurd h (lt_irrefl _)
        · exact Or.inr ⟨rfl, h⟩

theorem isoShape_elim {l : List Char} (hl : isoShape l = true) :
    ∃ y1 y2 y3 y4 m1 m2 d1 d2 : Char,
      l = [y1, y2, y3, y4, '-', m1, m2, '-', d1, d2] ∧
      y1.isDigit = true ∧ y2.isDigit = true ∧ y3.isDigit = true ∧ y4.isDigit = true ∧
      m1.isDigit = true ∧ m2.isDigit = true ∧ d1.isDigit = true ∧ d2.isDigit = true := by
  match l with
  | [] => simp [isoShape] at hl
  | [a] => simp [isoShape] at hl
  | [a, b] => simp [isoShape] at hl
  | [a, b, c] => simp [isoShape] at hl
  | [a, b, c, d] => simp [isoShape] at hl
  | [a, b, c, d, e] => simp [isoShape] at hl
  | [a, b, c, d, e, f] => simp [isoShape] at hl
  | [a, b, c, d, e, f, g] => simp [isoShape] at hl
  | [a, b, c, d, e, f, g, h] => simp [isoShape] at hl
  | [a, b, c, d, e, f, g, h, i] => simp [isoShape] at hl
  | [a, b, c, d, e, f, g, h, i, j] =>
    simp only [isoShape, Bool.and_eq_true, beq_iff_eq] at hl
    obtain ⟨⟨⟨⟨⟨⟨⟨⟨⟨ha, hb⟩, hc⟩, hd⟩, he⟩, hf⟩, hg⟩, hh⟩, hi⟩, hj⟩ := hl
    subst he; subst hh
    exact ⟨a, b, c, d, f, g, i, j, rfl, ha, hb, hc, hd, hf, hg, hi, hj⟩
  | a :: b :: c :: d :: e :: f :: g :: h :: i :: j :: k :: rest => simp [isoShape] at hl

theorem strVal_iso (y1 y2 y3 y4 m1 m2 d1 d2 : Char) :
    strVal [y1, y2, y3, y4, '-', m1, m2, '-', d1, d2] =
      ((((charVal y1 * 10 + charVal y2) * 10 + charVal y3) * 10 + charVal y4) * 1000000 +
        (charVal m1 * 10 + charVal m2) * 1000 + (charVal d1 * 10 + charVal d2)) := by
  simp only [strVal, List.length_cons, List.length_nil, charVal_dash]
  ring

theorem isoPairs {y1 y2 y3 y4 m1 m2 d1 d2 u1 u2 u3 u4 v1 v2 w1 w2 : Char}
    (h1 : y1.isDigit = true) (h2 : y2.isDigit = true) (h3 : y3.isDigit = true)
    (h4 : y4.isDigit = true) (h5 : m1.isDigit = true) (h6 : m2.isDigit = true)
    (h7 : d1.isDigit = true) (h8 : d2.isDigit = true)
    (g1 : u1.isDigit = true) (g2 : u2.isDigit = true) (g3 : u3.isDigit = true)
    (g4 : u4.isDigit = true) (g5 : v1.isDigit = true) (g6 : v2.isDigit = true)
    (g7 : w1.isDigit = true) (g8 : w2.isDigit = true) :
    List.Forall₂ okPair [y1, y2, y3, y4, '-', m1, m2, '-', d1, d2]
      [u1, u2, u3, u4, '-', v1, v2, '-', w1, w2] :=
  .cons (Or.inl ⟨h1, g1⟩) (.cons (Or.inl ⟨h2, g2⟩) (.cons (Or.inl ⟨h3, g3⟩)
    (.cons (Or.inl ⟨h4, g4⟩) (.cons (Or.inr ⟨rfl, rfl⟩) (.cons (Or.inl ⟨h5, g5⟩)
      (.cons (Or.inl ⟨h6, g6⟩) (.cons (Or.inr ⟨rfl, rfl⟩) (.cons (Or.inl ⟨h7, g7⟩)
        (.cons (Or.inl ⟨h8, g8⟩) .nil)))))))))

theorem isoDateYMD_eq {s : String} {y1 y2 y3 y4 m1 m2 d1 d2 : Char}
    (h : s.toList = [y1, y2, y3, y4, '-', m1, m2, '-', d1, d2]) :
    isoDateYMD s = (((charVal y1 * 10 + charVal y2) * 10 + charVal y3) * 10 + charVal y4,
      charVal m1 * 10 + charVal m2, charVal d1 * 10 + charVal d2) := by
  unfold isoDateYMD
  rw [h]

theorem iso_strLt_iff {s t : String} (hs : isIsoDate s = true) (ht : isIsoDate t = true) :
    strLt s t ↔ ymdLT (isoDateYMD s) (isoDateYMD t) := by
  obtain ⟨y1, y2, y3, y4, m1, m2, d1, d2, hseq, h1, h2, h3, h4, h5, h6, h7, h8⟩ :=
    isoShape_elim hs
  obtain ⟨u1, u2, u3, u4, v1, v2, w1, w2, hteq, g1, g2, g3, g4, g5, g6, g7, g8⟩ :=
    isoShape_elim ht
  unfold strLt
  rw [hseq, hteq, lex_lt_iff_strVal
    (isoPairs h1 h2 h3 h4 h5 h6 h7 h8 g1 g2 g3 g4 g5 g6 g7 g8)]
  rw [strVal_iso, strVal_iso, isoDateYMD_eq hseq, isoDateYMD_eq hteq]
  unfold ymdLT
  have b1 := charVal_le_nine h1
  have b2 := charVal_le_nine h2
  have b3 := charVal_le_nine h3
  have b4 := charVal_le_nine h4
  have b5 := charVal_le_nine h5
  have b6 := charVal_le_nine h6
  have b7 := charVal_le_nine h7
  have b8 := charVal_le_nine h8
  have c1 := charVal_le_nine g1
  have c2 := charVal_le_nine g2
  have c3 := charVal_le_nine g3
  have c4 := charVal_le_nine g4
  have c5 := charVal_le_nine g5
  have c6 := charVal_le_nine g6
  have c7 := charVal_le_nine g7
  have c8 := charVal_le_nine g8
  simp only []
  omega

theorem iso_strLe_iff {s t : String} (hs : isIsoDate s = true) (ht : isIsoDate t = true) :
    strLe s t ↔ ymdLE (isoDateYMD s) (isoDateYMD t) := by
  obtain ⟨y1, y2, y3, y4, m1, m2, d1, d2, hseq, h1, h2, h3, h4, h5, h6, h7, h8⟩ :=
    isoShape_elim hs
  obtain ⟨u1, u2, u3, u4, v1, v2, w1, w2, hteq, g1, g2, g3, g4, g5, g6, g7, g8⟩ :=
    isoShape_elim ht
  unfold strLe
  rw [hseq, hteq, lex_lt_iff_strVal
    (isoPairs g1 g2 g3 g4 g5 g6 g7 g8 h1 h2 h3 h4 h5 h6 h7 h8)]
  rw [strVal_iso, strVal_iso, isoDateYMD_eq hseq, isoDateYMD_eq hteq]
  unfold ymdLE
  have b1 := charVal_le_nine h1
  have b2 := charVal_le_nine h2
  have b3 := charVal_le_nine h3
  have b4 := charVal_le_nine h4
  have b5 := charVal_le_nine h5
  have b6 := charVal_le_nine h6
  have b7 := charVal_le_nine h7
  have b8 := charVal_le_nine h8
  have c1 := charVal_le_nine g1
  have c2 := charVal_le_nine g2
  have c3 := charVal_le_nine g3
  have c4 := charVal_le_nine g4
  have c5 := charVal_le_nine g5
  have c6 := charVal_le_nine g6
  have c7 := charVal_le_nine g7
  have c8 := charVal_le_nine g8
  simp only []
  omega

theorem iso_to_datetime_le_iff {s t : String} (hs : isIsoDate s = true)
    (ht : isIsoDate t = true) :
    to_datetime s ≤ to_datetime t ↔ ymdLE (isoDateYMD s) (isoDateYMD t) := by
  obtain ⟨y1, y2, y3, y4, m1, m2, d1, d2, hseq, h1, h2, h3, h4, h5, h6, h7, h8⟩ :=
    isoShape_elim hs
  obtain ⟨u1, u2, u3, u4, v1, v2, w1, w2, hteq, g1, g2, g3, g4, g5, g6, g7, g8⟩ :=
    isoShape_elim ht
  unfold to_datetime
  rw [hseq, hteq, strVal_iso, strVal_iso, isoDateYMD_eq hseq, isoDateYMD_eq hteq]
  unfold ymdLE
  have b5 := charVal_le_nine h5
  have b6 := charVal_le_nine h6
  have b7 := charVal_le_nine h7
  have b8 := charVal_le_nine h8
  have c5 := charVal_le_nine g5
  have c6 := charVal_le_nine g6
  have c7 := charVal_le_nine g7
  have c8 := charVal_le_nine g8
  simp only []
  omega

theorem strLt_iff_string_lt (s t : String) : strLt s t ↔ s < t :=
  String.lt_iff_toList_lt.symm

theorem strLe_iff_string_le (s t : String) : strLe s t ↔ s ≤ t := by
  rw [String.le_iff_toList_le]
  exact not_lt

/- ------------------------------------------------------------------ -/
/- Ticker normalization lemmas                                         -/
/- ------------------------------------------------------------------ -/

theorem toUpper_toNat (c : Char) :
    (Char.toUpper c).toNat = if 97 ≤ c.toNat ∧ c.toNat ≤ 122 then c.toNat - 32 else c.toNat := by
  show (if c.toNat ≥ 97 ∧ c.toNat ≤ 122 then Char.ofNat (c.toNat - 32) else c).toNat = _
  by_cases h : 97 ≤ c.toNat ∧ c.toNat ≤ 122
  · have hv : (c.toNat - 32).isValidChar := Or.inl (by omega)
    rw [if_pos h, if_pos ⟨h.1, h.2⟩]
    unfold Char.ofNat
    rw [dif_pos hv]
    rfl
  · rw [if_neg h, if_neg h]

theorem upperChar_ne_dot (c : Char) : Char.toUpper (if c = '.' then '-' else c) ≠ '.' := by
  by_cases hc : c = '.'
  · subst hc
    decide
  · rw [if_neg hc]
    intro he
    have h1 : (Char.toUpper c).toNat = ('.' : Char).toNat := congrArg Char.toNat he
    rw [toUpper_toNat] at h1
    have h2 : ('.' : Char).toNat = 46 := by decide
    rw [h2] at h1
    split at h1
    · omega
    · exact hc (char_toNat_inj (by rw [h1]; decide))

theorem upperChar_not_lower (c : Char) :
    ¬ (Char.toUpper (if c = '.' then '-' else c)).isLower = true := by
  by_cases hc : c = '.'
  · subst hc
    decide
  · rw [if_neg hc]
    intro h
    have h2 : 97 ≤ (Char.toUpper c).toNat ∧ (Char.toUpper c).toNat ≤ 122 := by
      simpa [Char.isLower] using h
    rw [toUpper_toNat] at h2
    split at h2 <;> omega

theorem normalizeSymbol_chars {s : String} {c : Char}
    (h : c ∈ (normalizeSymbol s).toList) : c ≠ '.' ∧ ¬ c.isLower = true := by
  unfold normalizeSymbol at h
  have h2 : c ∈ s.toList.map (fun c => Char.toUpper (if c = '.' then '-' else c)) := h
  obtain ⟨d, -, hd⟩ := List.mem_map.mp h2
  subst hd
  exact ⟨upperChar_ne_dot d, upperChar_not_lower d⟩

/- ------------------------------------------------------------------ -/
/- Deduplication lemmas                                                -/
/- ------------------------------------------------------------------ -/

theorem dropDupsAux_subset {seen : List PriceRow} {l : List (Nat × PriceRow)}
    {p : Nat × PriceRow} (h : p ∈ dropDupsAux seen l) : p ∈ l := by
  induction l generalizing seen with
  | nil => simp [dropDupsAux] at h
  | cons q rest ih =>
    unfold dropDupsAux at h
    split at h
    · exact List.mem_cons_of_mem q (ih h)
    · rcases List.mem_cons.mp h with rfl | h2
      · exact List.mem_cons_self _ _
      · exact List.mem_cons_of_mem q (ih h2)

theorem dropDupsAux_not_seen {seen : List PriceRow} {l : List (Nat × PriceRow)}
    {p : Nat × PriceRow} (h : p ∈ dropDupsAux seen l) : p.2 ∉ seen := by
  induction l generalizing seen with
  | nil => simp [dropDupsAux] at h
  | cons q rest ih =>
    unfold dropDupsAux at h
    split at h
    · exact ih h
    · rename_i hq
      rcases List.mem_cons.mp h with rfl | h2
      · exact hq
      · intro hc
        exact ih h2 (List.mem_cons_of_mem _ hc)

theorem dropDupsAux_pairwise (seen : List PriceRow) (l : List (Nat × PriceRow)) :
    List.Pairwise (fun a b => a.2 ≠ b.2) (dropDupsAux seen l) := by
  induction l generalizing seen with
  | nil => exact List.Pairwise.nil
  | cons q rest ih =>
    unfold dropDupsAux
    split
    · exact ih seen
    · refine List.Pairwise.cons ?_ (ih _)
      intro b hb
      have hns := dropDupsAux_not_seen hb
      intro hc
      exact hns (List.mem_cons.mpr (Or.inl hc.symm))

theorem dropDupsAux_covers (seen : List PriceRow) {l : List (Nat × PriceRow)}
    {r : Nat × PriceRow} (h : r ∈ l) :
    r.2 ∈ seen ∨ ∃ q ∈ dropDupsAux seen l, q.2 = r.2 := by
  induction l generalizing seen with
  | nil => cases h
  | cons p rest ih =>
    unfold dropDupsAux
    rcases List.mem_cons.mp h with rfl | h2
    · split
      · rename_i hp
        exact Or.inl hp
      · exact Or.inr ⟨r, List.mem_cons_self _ _, rfl⟩
    · split
      · exact ih seen h2
      · rcases ih (p.2 :: seen) h2 with hmem | ⟨q, hq, hq2⟩
        · rcases List.mem_cons.mp hmem with heq | hseen
          · exact Or.inr ⟨p, List.mem_cons_self _ _, heq.symm⟩
          · exact Or.inl hseen
        · exact Or.inr ⟨q, List.mem_cons_of_mem _ hq, hq2⟩

/- ------------------------------------------------------------------ -/
/- Sorting lemmas                                                      -/
/- ------------------------------------------------------------------ -/

instance : IsTotal (Nat × PriceRow) rowKeyLE := ⟨by
  intro a b
  unfold rowKeyLE rowLE strLt strLe
  rcases lt_trichotomy a.2.symbol.toList b.2.symbol.toList with h | h | h
  · exact Or.inl (Or.inl h)
  · have he : a.2.symbol = b.2.symbol := String.toList_inj.mp h
    rcases le_total a.2.date.toList b.2.date.toList with hd | hd
    · exact Or.inl (Or.inr ⟨he, not_lt.mpr hd⟩)
    · exact Or.inr (Or.inr ⟨he.symm, not_lt.mpr hd⟩)
  · exact Or.inr (Or.inl h)⟩

instance : IsTrans (Nat × PriceRow) rowKeyLE := ⟨by
  intro a b c hab hbc
  unfold rowKeyLE rowLE strLt strLe at *
  rcases hab with h1 | ⟨e1, d1⟩ <;> rcases hbc with h2 | ⟨e2, d2⟩
  · exact Or.inl (lt_trans h1 h2)
  · exact Or.inl (by rw [← e2]; exact h1)
  · exact Or.inl (by rw [e1]; exact h2)
  · refine Or.inr ⟨e1.trans e2, ?_⟩
    exact not_lt.mpr (le_trans (not_lt.mp d1) (not_lt.mp d2))⟩

theorem sort_values_sorted (l : List (Nat × PriceRow)) :
    List.Pairwise rowKeyLE (sort_values l) :=
  List.sorted_insertionSort rowKeyLE l

theorem sort_values_perm (l : List (Nat × PriceRow)) :
    List.Perm (sort_values l) l :=
  List.perm_insertionSort rowKeyLE l

/- ------------------------------------------------------------------ -/
/- Post-processing lemmas                                              -/
/- ------------------------------------------------------------------ -/

theorem pairwise_reset {r : PriceRow → PriceRow → Prop} {l : List (Nat × PriceRow)}
    (h : List.Pairwise (fun a b => r a.2 b.2) l) :
    List.Pairwise (fun a b => r a.2 b.2) (reset_index l) := by
  unfold reset_index
  have hx : List.Pairwise r (l.map Prod.snd) := List.pairwise_map.mpr h
  exact List.pairwise_map.mp (by rw [List.enum_map_snd]; exact hx)

theorem mem_reset {l : List (Nat × PriceRow)} {p : Nat × PriceRow}
    (h : p ∈ reset_index l) : ∃ q ∈ l, q.2 = p.2 := by
  unfold reset_index at h
  have h2 : p.2 ∈ (l.map Prod.snd).enum.map Prod.snd := List.mem_map_of_mem Prod.snd h
  rw [List.enum_map_snd] at h2
  obtain ⟨q, hq, hq2⟩ := List.mem_map.mp h2
  exact ⟨q, hq, hq2⟩

theorem reset_mem {l : List (Nat × PriceRow)} {q : Nat × PriceRow} (h : q ∈ l) :
    ∃ i, (i, q.2) ∈ reset_index l := by
  unfold reset_index
  have h2 : q.2 ∈ l.map Prod.snd := List.mem_map_of_mem Prod.snd h
  obtain ⟨n, hn, he⟩ := List.mem_iff_getElem.mp h2
  exact ⟨n, (List.mk_mem_enum_iff_getElem?).mpr (by rw [List.getElem?_eq_getElem hn, he])⟩

theorem reset_fst_inj {l : List (Nat × PriceRow)} {i : Nat} {x y : PriceRow}
    (hx : (i, x) ∈ reset_index l) (hy : (i, y) ∈ reset_index l) : x = y := by
  unfold reset_index at hx hy
  have h1 := (List.mk_mem_enum_iff_getElem?).mp hx
  have h2 := (List.mk_mem_enum_iff_getElem?).mp hy
  rw [h1] at h2
  exact Option.some.inj h2

theorem postprocess_sorted (frames : List (List PriceRow)) :
    List.Pairwise rowKeyLE (postprocess frames) := by
  unfold postprocess
  exact pairwise_reset (sort_values_sorted _)

theorem postprocess_pairwise_ne (frames : List (List PriceRow)) :
    List.Pairwise (fun a b => a.2 ≠ b.2) (postprocess frames) := by
  unfold postprocess
  refine pairwise_reset ?_
  have h1 := dropDupsAux_pairwise [] (frames.flatten.enum)
  exact ((sort_values_perm _).pairwise_iff (fun h => Ne.symm h)).mpr h1

theorem postprocess_covers {frames : List (List PriceRow)} {r : PriceRow}
    (h : r ∈ frames.flatten) : ∃ i, (i, r) ∈ postprocess frames := by
  obtain ⟨n, hn, he⟩ := List.mem_iff_getElem.mp h
  have henum : (n, r) ∈ frames.flatten.enum :=
    (List.mk_mem_enum_iff_getElem?).mpr (by rw [List.getElem?_eq_getElem hn, he])
  rcases dropDupsAux_covers [] henum with hc | ⟨q, hq, hq2⟩
  · cases hc
  · have hs : q ∈ sort_values (drop_duplicates frames.flatten.enum) :=
      (sort_values_perm _).mem_iff.mpr hq
    obtain ⟨i, hi⟩ := reset_mem hs
    rw [hq2] at hi
    exact ⟨i, hi⟩

theorem postprocess_mem_flatten {frames : List (List PriceRow)} {p : Nat × PriceRow}
    (h : p ∈ postprocess frames) : p.2 ∈ frames.flatten := by
  unfold postprocess at h
  obtain ⟨q, hq, hq2⟩ := mem_reset h
  have hL : q ∈ drop_duplicates frames.flatten.enum :=
    (sort_values_perm _).mem_iff.mp hq
  have he : q ∈ frames.flatten.enum := dropDupsAux_subset hL
  have h2 : q.2 ∈ frames.flatten.enum.map Prod.snd := List.mem_map_of_mem Prod.snd he
  rw [List.enum_map_snd] at h2
  rw [← hq2]
  exact h2

theorem postprocess_fst (frames : List (List PriceRow)) :
    (postprocess frames).map Prod.fst = List.range (postprocess frames).length := by
  unfold postprocess reset_index
  rw [List.enum_map_fst, List.enum_length]

/- ------------------------------------------------------------------ -/
/- Accumulation-loop lemmas                                            -/
/- ------------------------------------------------------------------ -/

theorem collectFrames_failed_removable (fetch : String → Except PError (Option (List PriceRow)))
    {t : String} (ht : fetch t = .ok none ∨ fetch t = .ok (some []))
    (pre post : List String) :
    collectFrames fetch (pre ++ t :: post) = collectFrames fetch (pre ++ post) := by
  induction pre with
  | nil =>
    show collectFrames fetch (t :: post) = collectFrames fetch post
    rcases ht with h | h
    · rw [collectFrames, h]
      rcases hp : collectFrames fetch post with e | fs <;> rfl
    · rw [collectFrames, h]
      rcases hp : collectFrames fetch post with e | fs <;> rfl
  | cons a pre ih =>
    show collectFrames fetch (a :: (pre ++ t :: post)) = collectFrames fetch (a :: (pre ++ post))
    rw [collectFrames, ih]
    conv_rhs => rw [collectFrames]

theorem collectFrames_all_failed {fetch : String → Except PError (Option (List PriceRow))}
    {tickers : List String} (h : ∀ t ∈ tickers, fetch t = .ok none) :
    collectFrames fetch tickers = .ok [] := by
  induction tickers with
  | nil => rfl
  | cons a rest ih =>
    unfold collectFrames
    rw [h a (List.mem_cons_self _ _), ih (fun t ht => h t (List.mem_cons_of_mem _ ht))]

theorem collectFrames_error_of_mem {fetch : String → Except PError (Option (List PriceRow))}
    {tickers : List String} {t : String} {e : PError}
    (hmem : t ∈ tickers) (he : fetch t = .error e) :
    ∃ e2, collectFrames fetch tickers = .error e2 := by
  induction tickers with
  | nil => cases hmem
  | cons a rest ih =>
    unfold collectFrames
    rcases List.mem_cons.mp hmem with rfl | h2
    · rw [he]
      exact ⟨e, rfl⟩
    · rcases hf : fetch a with e3 | odf
      · exact ⟨e3, rfl⟩
      · rcases ih h2 with ⟨e2, h3⟩
        rw [h3]
        exact ⟨e2, rfl⟩

theorem collectFrames_mem {fetch : String → Except PError (Option (List PriceRow))}
    {tickers : List String} {frames : List (List PriceRow)}
    (h : collectFrames fetch tickers = .ok frames) {df : List PriceRow} (hdf : df ∈ frames) :
    ∃ t ∈ tickers, fetch t = .ok (some df) := by
  induction tickers generalizing frames with
  | nil =>
    injection h with h
    subst h
    cases hdf
  | cons a rest ih =>
    unfold collectFrames at h
    rcases hf : fetch a with e | odf
    · simp only [hf] at h
      exact Except.noConfusion h
    · rcases hc : collectFrames fetch rest with e | fs
      · simp only [hf, hc] at h
        exact Except.noConfusion h
      · rcases odf with _ | df2
        · simp only [hf, hc, Except.ok.injEq] at h
          subst h
          obtain ⟨t, ht, ht2⟩ := ih hc hdf
          exact ⟨t, List.mem_cons_of_mem _ ht, ht2⟩
        · simp only [hf, hc, Except.ok.injEq] at h
          by_cases hemp : df2.isEmpty
          · rw [if_pos hemp] at h
            subst h
            obtain ⟨t, ht, ht2⟩ := ih hc hdf
            exact ⟨t, List.mem_cons_of_mem _ ht, ht2⟩
          · rw [if_neg hemp] at h
            subst h
            rcases List.mem_cons.mp hdf with rfl | h4
            · exact ⟨a, List.mem_cons_self _ _, hf⟩
            · obtain ⟨t, ht, ht2⟩ := ih hc h4
              exact ⟨t, List.mem_cons_of_mem _ ht, ht2⟩

/- ------------------------------------------------------------------ -/
/- build_dataset lemmas                                                -/
/- ------------------------------------------------------------------ -/

theorem build_dataset_of_collect {fetch : String → Except PError (Option (List PriceRow))}
    {tickers : List String} {frames : List (List PriceRow)}
    (h : collectFrames fetch tickers = .ok frames) (hne : frames ≠ []) :
    build_dataset fetch tickers =
      .ok ((postprocess frames).map (fun p => (p.1, narrowRow p.2))) := by
  unfold build_dataset
  rw [h]
  exact if_neg (by simpa [List.isEmpty_iff] using hne)

theorem build_dataset_ok_inv {fetch : String → Except PError (Option (List PriceRow))}
    {tickers : List String} {out : List (Nat × NarrowRow)}
    (h : build_dataset fetch tickers = .ok out) :
    ∃ frames, collectFrames fetch tickers = .ok frames ∧ frames ≠ [] ∧
      out = (postprocess frames).map (fun p => (p.1, narrowRow p.2)) := by
  unfold build_dataset at h
  rcases hc : collectFrames fetch tickers with e | frames
  · simp only [hc] at h
    exact Except.noConfusion h
  · simp only [hc] at h
    by_cases hne : frames.isEmpty
    · rw [if_pos hne] at h
      exact Except.noConfusion h
    · rw [if_neg hne] at h
      injection h with h
      exact ⟨frames, rfl, by simpa [List.isEmpty_iff] using hne, h.symm⟩

theorem build_dataset_empty {fetch : String → Except PError (Option (List PriceRow))}
    {tickers : List String} (h : ∀ t ∈ tickers, fetch t = .ok none) :
    build_dataset fetch tickers = .error (.emptyResult EMPTY_MSG) := by
  unfold build_dataset
  rw [collectFrames_all_failed h]
  rfl

theorem build_dataset_parse_error {fetch : String → Except PError (Option (List PriceRow))}
    {tickers : List String} {t : String} {e : PError}
    (hmem : t ∈ tickers) (he : fetch t = .error e) :
    ∃ e2, build_dataset fetch tickers = .error (.parseFailure e2) := by
  obtain ⟨e2, h2⟩ := collectFrames_error_of_mem hmem he
  refine ⟨e2, ?_⟩
  unfold build_dataset
  rw [h2]

/- ------------------------------------------------------------------ -/
/- Weightings-pipeline lemmas                                          -/
/- ------------------------------------------------------------------ -/

namespace Weights

theorem divBy100_eq (q : Rat) : divBy100 q = q / 100 := by
  unfold divBy100
  rw [Rat.mkRat_eq_div]
  push_cast
  rw [div_mul_eq_div_div]
  congr 1
  exact_mod_cast Rat.num_div_den q

theorem colIdxsAux_length (j : Nat) (cols : List String) (name : String) :
    (colIdxsAux j cols name).length = cols.count name := by
  induction cols generalizing j with
  | nil => rfl
  | cons c cs ih =>
    unfold colIdxsAux
    rw [List.count_cons name c cs]
    by_cases h : c = name
    · rw [if_pos h]
      simp [ih, h]
    · rw [if_neg h]
      have hbe : (c == name) = false := beq_eq_false_iff_ne.mpr h
      simp [ih, hbe]

theorem colIdxs_singleton {cols : List String} {name : String}
    (h : cols.count name = 1) : ∃ i, colIdxs cols name = [i] := by
  have hl : (colIdxs cols name).length = 1 := by
    unfold colIdxs
    rw [colIdxsAux_length, h]
  exact List.length_eq_one.mp hl

theorem selectCols_none {f : Frame} {names : List String} {name : String}
    (hmem : name ∈ names) (habs : name ∉ f.cols) : selectCols f names = none := by
  unfold selectCols
  rw [if_neg]
  intro hall
  rw [List.all_eq_true] at hall
  exact habs (List.elem_iff.mp (hall name hmem))

theorem selectCols_some {f : Frame} {names : List String} {out : Frame}
    (h : selectCols f names = some out) :
    out.cols = (names.map (fun n => (colIdxs f.cols n).map (fun _ => n))).flatten ∧
      out.index = f.index ∧
      out.rows = f.rows.map
        (fun r => ((names.map (colIdxs f.cols)).flatten).map (fun i => r.getD i (Cell.str ""))) := by
  unfold selectCols at h
  split at h
  · injection h with h
    subst h
    exact ⟨rfl, rfl, rfl⟩
  · cases h

theorem load_spy_weights_ok_inv {excelParse : String → List (List Cell)} {net : HttpResult}
    {normalise : Bool} {skip_first rows_to_read : Nat} {out : Frame}
    (h : load_spy_weights excelParse net normalise skip_first rows_to_read = .ok out) :
    ∃ body sel, download_excel net = .ok body ∧
      selectCols (read_excel (excelParse body) skip_first rows_to_read) ["Ticker", "Weight"]
        = some sel ∧
      out = reset_index (if normalise then normaliseWeights sel else sel) := by
  unfold load_spy_weights at h
  rcases hd : download_excel net with e | body
  · simp only [hd] at h
    exact Except.noConfusion h
  · simp only [hd] at h
    rcases hs : selectCols (read_excel (excelParse body) skip_first rows_to_read)
        ["Ticker", "Weight"] with _ | sel
    · simp only [hs] at h
      exact Except.noConfusion h
    · simp only [hs] at h
      injection h with h
      exact ⟨body, sel, rfl, hs, h.symm⟩

theorem load_spy_weights_keyError {excelParse : String → List (List Cell)} {net : HttpResult}
    {normalise : Bool} {skip_first rows_to_read : Nat} {body : String}
    (hd : download_excel net = .ok body)
    (habs : "Ticker" ∉ (read_excel (excelParse body) skip_first rows_to_read).cols ∨
      "Weight" ∉ (read_excel (excelParse body) skip_first rows_to_read).cols) :
    load_spy_weights excelParse net normalise skip_first rows_to_read = .error .keyError := by
  unfold load_spy_weights
  have hnone : selectCols (read_excel (excelParse body) skip_first rows_to_read)
      ["Ticker", "Weight"] = none := by
    rcases habs with h | h
    · exact selectCols_none (by simp) h
    · exact selectCols_none (by simp) h
  simp only [hd, hnone]

theorem read_excel_rows_le (sheet : List (List Cell)) (skiprows nrows : Nat) :
    (read_excel sheet skiprows nrows).rows.length ≤ nrows := by
  unfold read_excel
  rcases h : sheet.drop skiprows with _ | ⟨header, body⟩
  · simp
  · simp [List.length_take]

theorem read_excel_index (sheet : List (List Cell)) (skiprows nrows : Nat) :
    (read_excel sheet skiprows nrows).index =
      List.range (read_excel sheet skiprows nrows).rows.length := by
  unfold read_excel
  rcases h : sheet.drop skiprows with _ | ⟨header, body⟩ <;> simp

end Weights

theorem Weights.selectCols_layout {f : Weights.Frame}
    (ht : f.cols.count "Ticker" = 1) (hw : f.cols.count "Weight" = 1) :
    ∃ i j, Weights.selectCols f ["Ticker", "Weight"] = some
      ⟨["Ticker", "Weight"], f.index,
        f.rows.map (fun r => [r.getD i (Weights.Cell.str ""), r.getD j (Weights.Cell.str "")])⟩ := by
  obtain ⟨i, hi⟩ := Weights.colIdxs_singleton ht
  obtain ⟨j, hj⟩ := Weights.colIdxs_singleton hw
  refine ⟨i, j, ?_⟩
  unfold Weights.selectCols
  rw [if_pos ?hall]
  case hall =>
    rw [List.all_eq_true]
    intro n hn
    rcases List.mem_cons.mp hn with rfl | hn2
    · exact List.elem_iff.mpr (List.count_pos_iff.mp (by omega))
    · rcases List.mem_cons.mp hn2 with rfl | hn3
      · exact List.elem_iff.mpr (List.count_pos_iff.mp (by omega))
      · cases hn3
  simp only [List.map_cons, List.map_nil, hi, hj, List.flatten]
  rfl

theorem Weights.normRow_pair (a b : Weights.Cell) :
    ((["Ticker", "Weight"].zip [a, b]).map
      (fun p => if p.1 = "Weight" then Weights.div100 p.2 else p.2)) =
      [a, Weights.div100 b] := by
  simp only [List.zip_cons_cons, List.zip_nil_right, List.map_cons, List.map_nil]
  simp

theorem fetch_stooq_none_iff (parseCsv : String → Option (List (String × Rat)))
    (net : HttpResult) (sym : String) :
    fetch_stooq_csv parseCsv net sym = .ok none ↔
      (net = .exn ∨ ∃ st body, net = .resp st body ∧
        (st ≠ 200 ∨ containsStr RATE_LIMIT_MARKER body)) := by
  cases net with
  | exn =>
    constructor
    · intro _
      exact Or.inl rfl
    · intro _
      rfl
  | resp st body =>
    simp only [fetch_stooq_csv]
    by_cases h : st ≠ 200 ∨ containsStr RATE_LIMIT_MARKER body
    · rw [if_pos h]
      constructor
      · intro _
        exact Or.inr ⟨st, body, rfl, h⟩
      · intro _
        rfl
    · rw [if_neg h]
      constructor
      · intro hc
        rcases hp : parseCsv body with _ | table
        · simp only [hp] at hc
          exact Except.noConfusion hc
        · simp only [hp] at hc
          injection hc with hc2
          exact Option.noConfusion hc2
      · rintro (h2 | ⟨st2, body2, heq, h3⟩)
        · exact HttpResult.noConfusion h2
        · injection heq with e1 e2
          subst e1
          subst e2
          exact absurd h3 h

theorem fetch_stooq_success (parseCsv : String → Option (List (String × Rat))) {body : String}
    (hm : ¬ containsStr RATE_LIMIT_MARKER body) (sym : String) :
    fetch_stooq_csv parseCsv (.resp 200 body) sym =
      match parseCsv body with
      | none => .error .missingColumns
      | some table => .ok (some (table.map (fun p => ⟨p.1, p.2, sym⟩))) := by
  simp only [fetch_stooq_csv]
  rw [if_neg (by simp [hm])]

theorem download_excel_error_iff (net : HttpResult) :
    (∃ e, Weights.download_excel net = .error e) ↔
      (net = .exn ∨ ∃ st body, net = .resp st body ∧ 400 ≤ st) := by
  cases net with
  | exn =>
    constructor
    · intro _
      exact Or.inl rfl
    · intro _
      exact ⟨.requestError, rfl⟩
  | resp st body =>
    simp only [Weights.download_excel, Weights.raise_for_status]
    by_cases h : 400 ≤ st
    · rw [if_pos h]
      constructor
      · intro _
        exact Or.inr ⟨st, body, rfl, h⟩
      · intro _
        exact ⟨.httpError st, rfl⟩
    · rw [if_neg h]
      constructor
      · rintro ⟨e, he⟩
        exact Except.noConfusion he
      · rintro (h2 | ⟨st2, body2, heq, h3⟩)
        · exact HttpResult.noConfusion h2
        · injection heq with e1 e2
          subst e1
          subst e2
          exact absurd h3 h

theorem download_excel_success {st : Nat} (h : ¬ 400 ≤ st) (body : String) :
    Weights.download_excel (.resp st body) = .ok body := by
  simp only [Weights.download_excel, Weights.raise_for_status]
  rw [if_neg h]

/- ------------------------------------------------------------------ -/
/- Claims                                                              -/
/- ------------------------------------------------------------------ -/

/-- C1 (counterexample): the claim "the output dataset contains no two rows
with identical (Symbol, Date, Close)" fails on the code: duplicate-dropping
runs before the float32 narrowing, so a run whose single frame holds the
same symbol and date with the full-precision closes `2^25` and `2^25 + 1`
produces an output whose two rows are identical after narrowing. -/
theorem build_dataset_float32_duplicate_rows :
    build_dataset collisionFetch ["AAA"] =
      .ok [(0, ⟨2024001002, mkRat 33554432 1, "AAA"⟩),
        (1, ⟨2024001002, mkRat 33554432 1, "AAA"⟩)] ∧
    ¬ List.Pairwise (fun a b : Nat × NarrowRow => a.2 ≠ b.2)
      [(0, (⟨2024001002, mkRat 33554432 1, "AAA"⟩ : NarrowRow)),
        (1, ⟨2024001002, mkRat 33554432 1, "AAA"⟩)] := by
  constructor
  · decide
  · decide

/-- C1 (amended): for every successful run of `build_dataset` whose fetched
date strings are ISO `YYYY-MM-DD`, the dataset before type narrowing
contains no two rows with identical (Symbol, Date, Close) at full
precision, the output is that dataset narrowed row-by-row, the row index is
reset to zero-based contiguous numbering, and the rows are sorted ascending
by Symbol (lexicographic) then by Date (chronological) — both before and
after narrowing.  After the float32/datetime narrowing, distinct
full-precision rows may coincide (see the counterexample). -/
theorem build_dataset_unique_sorted_reindexed
    (fetch : String → Except PError (Option (List PriceRow))) (tickers : List String)
    (frames : List (List PriceRow)) (out : List (Nat × NarrowRow))
    (hcf : collectFrames fetch tickers = .ok frames)
    (hout : build_dataset fetch tickers = .ok out)
    (hiso : ∀ r ∈ frames.flatten, isIsoDate r.date = true) :
    out.map Prod.fst = List.range out.length ∧
    List.Pairwise (fun a b => a.2 ≠ b.2) (postprocess frames) ∧
    out = (postprocess frames).map (fun p => (p.1, narrowRow p.2)) ∧
    List.Pairwise (fun a b => strLt a.2.symbol b.2.symbol ∨
      (a.2.symbol = b.2.symbol ∧ ymdLE (isoDateYMD a.2.date) (isoDateYMD b.2.date)))
      (postprocess frames) ∧
    List.Pairwise (fun a b : Nat × NarrowRow => strLt a.2.symbol b.2.symbol ∨
      (a.2.symbol = b.2.symbol ∧ a.2.date ≤ b.2.date)) out := by
  obtain ⟨frames2, hcf2, hne2, hout2⟩ := build_dataset_ok_inv hout
  rw [hcf] at hcf2
  injection hcf2 with hfr
  subst hfr
  have hiso2 : ∀ p ∈ postprocess frames, isIsoDate p.2.date = true :=
    fun p hp => hiso _ (postprocess_mem_flatten hp)
  have hchron : List.Pairwise (fun a b => strLt a.2.symbol b.2.symbol ∨
      (a.2.symbol = b.2.symbol ∧ ymdLE (isoDateYMD a.2.date) (isoDateYMD b.2.date)))
      (postprocess frames) := by
    refine (postprocess_sorted frames).imp_of_mem ?_
    intro a b ha hb hab
    unfold rowKeyLE rowLE at hab
    rcases hab with h | ⟨he, hd⟩
    · exact Or.inl h
    · exact Or.inr ⟨he, (iso_strLe_iff (hiso2 a ha) (hiso2 b hb)).mp hd⟩
  refine ⟨?_, postprocess_pairwise_ne frames, hout2, hchron, ?_⟩
  · rw [hout2, List.map_map, List.length_map]
    exact postprocess_fst frames
  · rw [hout2]
    refine List.pairwise_map.mpr ?_
    refine hchron.imp_of_mem ?_
    intro a b ha hb hab
    rcases hab with h | ⟨he, hd⟩
    · exact Or.inl h
    · exact Or.inr ⟨he, (iso_to_datetime_le_iff (hiso2 a ha) (hiso2 b hb)).mpr hd⟩

/-- C1 (witness): the amended theorem applied to the concrete two-row AAA
run: the full-precision dataset of that run has pairwise-distinct rows. -/
theorem build_dataset_unique_sorted_reindexed_witness :
    List.Pairwise (fun a b => a.2 ≠ b.2)
      (postprocess [[⟨"2024-01-02", 10, "AAA"⟩, ⟨"2024-01-03", mkRat 21 2, "AAA"⟩]]) :=
  (build_dataset_unique_sorted_reindexed scenarioFetch ["AAA", "BBB"]
    [[⟨"2024-01-02", 10, "AAA"⟩, ⟨"2024-01-03", mkRat 21 2, "AAA"⟩]]
    [(0, ⟨2024001002, 10, "AAA"⟩), (1, ⟨2024001003, mkRat 21 2, "AAA"⟩)]
    (by decide) (by decide) (by decide)).2.1

/-- C2: a ticker whose fetch fails (`None`) or returns an empty frame
contributes zero records — deleting it from the ticker list does not change
the run's result, and the remaining tickers are still processed.  In the
two-ticker scenario (AAA yields closes 10.0 and 10.5 on 2024-01-02/03,
BBB's fetch fails) the output is exactly the two AAA rows, date-sorted. -/
theorem failed_ticker_contributes_nothing :
    (∀ (fetch : String → Except PError (Option (List PriceRow))) (t : String)
      (pre post : List String),
      (fetch t = .ok none ∨ fetch t = .ok (some [])) →
      build_dataset fetch (pre ++ t :: post) = build_dataset fetch (pre ++ post)) ∧
    build_dataset scenarioFetch ["AAA", "BBB"] =
      .ok [(0, ⟨2024001002, 10, "AAA"⟩), (1, ⟨2024001003, mkRat 21 2, "AAA"⟩)] ∧
    scenarioFetch "BBB" = .ok none := by
  refine ⟨?_, by decide, by decide⟩
  intro fetch t pre post ht
  unfold build_dataset
  rw [collectFrames_failed_removable fetch ht pre post]

/-- C2 (witness): dropping the failed ticker BBB from the scenario's list
leaves the run's result unchanged. -/
theorem failed_ticker_contributes_nothing_witness :
    build_dataset scenarioFetch (["AAA"] ++ "BBB" :: []) =
      build_dataset scenarioFetch (["AAA"] ++ []) :=
  failed_ticker_contributes_nothing.1 scenarioFetch "BBB" ["AAA"] [] (Or.inl (by decide))

/-- C3: when every per-ticker fetch fails, `build_dataset` raises the fatal
empty-result error carrying the diagnostic message (which mentions
connectivity and rate limits), and `main` aborts before writing any output
file. -/
theorem all_fetches_fail_empty_result
    (fetch : String → Except PError (Option (List PriceRow))) (tickers : List String)
    (h : ∀ t ∈ tickers, fetch t = .ok none) :
    build_dataset fetch tickers = .error (.emptyResult EMPTY_MSG) ∧
    stooq_main fetch tickers = .error (.emptyResult EMPTY_MSG) ∧
    containsStr "connectivity" EMPTY_MSG ∧ containsStr "rate limits" EMPTY_MSG := by
  have hb := build_dataset_empty h
  refine ⟨hb, ?_, by decide, by decide⟩
  unfold stooq_main
  rw [hb]

/-- C3 (witness): the all-fetches-fail run aborts without writing. -/
theorem all_fetches_fail_empty_result_witness :
    stooq_main allFailFetch ["AAA", "BBB"] = .error (.emptyResult EMPTY_MSG) :=
  (all_fetches_fail_empty_result allFailFetch ["AAA", "BBB"] (fun _ _ => rfl)).2.1

/-- C4 (counterexample): the claim that the weightings fetch raises a fatal
error when the response body matches the rate-limit marker fails on the
code: `download_excel` never inspects the body, so a 200 response whose
body is exactly the marker is returned as a success. -/
theorem download_excel_ignores_rate_limit_marker :
    Weights.download_excel (.resp 200 RATE_LIMIT_MARKER) = .ok RATE_LIMIT_MARKER ∧
    ∀ e, Weights.download_excel (.resp 200 RATE_LIMIT_MARKER) ≠ .error e := by
  constructor
  · decide
  · intro e h
    have h2 : (Except.ok RATE_LIMIT_MARKER : Except Weights.WError String) = .error e :=
      (show Weights.download_excel (.resp 200 RATE_LIMIT_MARKER) = .ok RATE_LIMIT_MARKER
        by decide) ▸ h
    exact Except.noConfusion h2

/-- C4 (amended): the per-symbol price fetch returns an absent result
exactly when the status is not 200, the body contains the rate-limit
marker, or the network call raises; the weightings fetch raises exactly
when the network call raises or the status is 4xx/5xx (it performs no
marker check); on any successful fetch the raw response body is used
(returned for the weightings fetch, passed to the CSV parser for the price
fetch). -/
theorem fetch_failure_conditions
    (parseCsv : String → Option (List (String × Rat))) (net : HttpResult) (sym : String) :
    (fetch_stooq_csv parseCsv net sym = .ok none ↔
      (net = .exn ∨ ∃ st body, net = .resp st body ∧
        (st ≠ 200 ∨ containsStr RATE_LIMIT_MARKER body))) ∧
    ((∃ e, Weights.download_excel net = .error e) ↔
      (net = .exn ∨ ∃ st body, net = .resp st body ∧ 400 ≤ st)) ∧
    (∀ st body, ¬ 400 ≤ st → Weights.download_excel (.resp st body) = .ok body) ∧
    (∀ body, ¬ containsStr RATE_LIMIT_MARKER body →
      fetch_stooq_csv parseCsv (.resp 200 body) sym =
        match parseCsv body with
        | none => .error .missingColumns
        | some table => .ok (some (table.map (fun p => ⟨p.1, p.2, sym⟩)))) :=
  ⟨fetch_stooq_none_iff parseCsv net sym, download_excel_error_iff net,
    fun _ body h => download_excel_success h body,
    fun _ hm => fetch_stooq_success parseCsv hm sym⟩

/-- C4 (witness): a clean 2xx weightings fetch returns the raw body. -/
theorem fetch_failure_conditions_witness :
    Weights.download_excel (.resp 200 "raw excel bytes") = .ok "raw excel bytes" :=
  (fetch_failure_conditions (fun _ => none)
    (.resp 200 "raw excel bytes") "aapl").2.2.1 200 "raw excel bytes" (by decide)

/-- C5: under the expected column layout (one `Ticker` and one `Weight`
column), running the extractor with `normalise = true` gives row-for-row
the same tickers as the raw (`normalise = false`) run, with every output
weight equal to the raw weight divided by 100; on numeric cells the
division is exact, so the round trip `raw = normalised * 100` holds with no
tolerance; with `normalise = false` the rows are the selected raw rows
unchanged. -/
theorem normalise_divides_by_100
    (excelParse : String → List (List Weights.Cell)) (net : HttpResult)
    (skip_first rows_to_read : Nat) (body : String) (dft dff : Weights.Frame)
    (hd : Weights.download_excel net = .ok body)
    (ht : (Weights.read_excel (excelParse body) skip_first rows_to_read).cols.count "Ticker" = 1)
    (hw : (Weights.read_excel (excelParse body) skip_first rows_to_read).cols.count "Weight" = 1)
    (hT : Weights.load_spy_weights excelParse net true skip_first rows_to_read = .ok dft)
    (hF : Weights.load_spy_weights excelParse net false skip_first rows_to_read = .ok dff) :
    dft.cols = ["Ticker", "Weight"] ∧ dff.cols = ["Ticker", "Weight"] ∧
    List.Forall₂ (fun rf rt =>
      rt.getD 0 (Weights.Cell.str "") = rf.getD 0 (Weights.Cell.str "") ∧
      rt.getD 1 (Weights.Cell.str "") = Weights.div100 (rf.getD 1 (Weights.Cell.str "")))
      dff.rows dft.rows ∧
    (∀ q : Rat, Weights.div100 (Weights.Cell.num q) = Weights.Cell.num (q / 100) ∧
      (q / 100) * 100 = q) ∧
    (∃ sel, Weights.selectCols (Weights.read_excel (excelParse body) skip_first rows_to_read)
      ["Ticker", "Weight"] = some sel ∧ dff.rows = sel.rows) := by
  obtain ⟨i, j, hsel⟩ := Weights.selectCols_layout ht hw
  obtain ⟨bT, selT, hdT, hsT, houtT⟩ := Weights.load_spy_weights_ok_inv hT
  obtain ⟨bF, selF, hdF, hsF, houtF⟩ := Weights.load_spy_weights_ok_inv hF
  rw [hd] at hdT hdF
  injection hdT with hbT
  injection hdF with hbF
  subst hbT
  subst hbF
  rw [hsel] at hsT hsF
  injection hsT with hsT
  injection hsF with hsF
  subst hsT
  subst hsF
  have houtT2 : dft = Weights.reset_index (Weights.normaliseWeights
      ⟨["Ticker", "Weight"],
        (Weights.read_excel (excelParse body) skip_first rows_to_read).index,
        (Weights.read_excel (excelParse body) skip_first rows_to_read).rows.map
          (fun r => [r.getD i (Weights.Cell.str ""), r.getD j (Weights.Cell.str "")])⟩) := by
    simpa using houtT
  have houtF2 : dff = Weights.reset_index
      ⟨["Ticker", "Weight"],
        (Weights.read_excel (excelParse body) skip_first rows_to_read).index,
        (Weights.read_excel (excelParse body) skip_first rows_to_read).rows.map
          (fun r => [r.getD i (Weights.Cell.str ""), r.getD j (Weights.Cell.str "")])⟩ := by
    simpa using houtF
  subst houtT2
  subst houtF2
  refine ⟨rfl, rfl, ?_, ?_, ?_⟩
  · show List.Forall₂ _
      ((Weights.read_excel (excelParse body) skip_first rows_to_read).rows.map
        (fun r => [r.getD i (Weights.Cell.str ""), r.getD j (Weights.Cell.str "")]))
      (((Weights.read_excel (excelParse body) skip_first rows_to_read).rows.map
        (fun r => [r.getD i (Weights.Cell.str ""), r.getD j (Weights.Cell.str "")])).map
        (fun r => (["Ticker", "Weight"].zip r).map
          (fun p => if p.1 = "Weight" then Weights.div100 p.2 else p.2)))
    rw [List.map_map, List.forall₂_map_left_iff, List.forall₂_map_right_iff]
    refine List.forall₂_same.mpr ?_
    intro r _
    simp only [Function.comp_apply]
    rw [Weights.normRow_pair]
    exact ⟨rfl, rfl⟩
  · intro q
    constructor
    · show Weights.Cell.num (Weights.divBy100 q) = Weights.Cell.num (q / 100)
      rw [Weights.divBy100_eq]
    · exact div_mul_cancel₀ q (by norm_num)
  · exact ⟨_, hsel, rfl⟩

/-- C5 (witness): the theorem applied to a concrete two-holding sheet:
the normalised output's columns are the two declared ones. -/
theorem normalise_divides_by_100_witness :
    (Weights.Frame.mk ["Ticker", "Weight"] [0, 1]
      [[.str "AAPL", .num (mkRat 7 100)], [.str "MSFT", .num (mkRat 13 200)]]).cols
      = ["Ticker", "Weight"] :=
  (normalise_divides_by_100 (fun _ => goodSheet) (.resp 200 "xlsx") 4 504 "xlsx"
    ⟨["Ticker", "Weight"], [0, 1],
      [[.str "AAPL", .num (mkRat 7 100)], [.str "MSFT", .num (mkRat 13 200)]]⟩
    ⟨["Ticker", "Weight"], [0, 1],
      [[.str "AAPL", .num 7], [.str "MSFT", .num (mkRat 13 2)]]⟩
    (by decide) (by decide) (by decide) (by decide) (by decide)).1

/-- C6 (counterexample): the claim that the resolver's output contains no
duplicate symbols fails on the code: no deduplication is performed, so a
source table carrying both `BRK.B` and `BRK-B` yields the symbol `BRK-B`
twice. -/
theorem get_sp500_tickers_duplicate :
    get_sp500_tickers ["BRK.B", "BRK-B"] = ["BRK-B", "BRK-B"] ∧
    ¬ (get_sp500_tickers ["BRK.B", "BRK-B"]).Nodup := by
  constructor
  · decide
  · decide

/-- C6 (amended): the resolver maps the source symbol column in order
(upper-casing and replacing every `.` by `-`); every character of every
output symbol is neither `.` nor lower-case; the output has no duplicates
exactly when the normalized source symbols are pairwise distinct — the
resolver itself never deduplicates. -/
theorem get_sp500_tickers_normalized (symbolColumn : List String) :
    get_sp500_tickers symbolColumn = symbolColumn.map normalizeSymbol ∧
    (∀ sym ∈ get_sp500_tickers symbolColumn, ∀ c ∈ sym.toList,
      c ≠ '.' ∧ ¬ c.isLower = true) ∧
    ((get_sp500_tickers symbolColumn).Nodup ↔
      List.Pairwise (fun a b => normalizeSymbol a ≠ normalizeSymbol b) symbolColumn) := by
  refine ⟨rfl, ?_, ?_⟩
  · intro sym hmem c hc
    obtain ⟨s, -, rfl⟩ := List.mem_map.mp hmem
    exact normalizeSymbol_chars hc
  · exact List.pairwise_map

/-- C6 (witness): the second part of the theorem applied to a concrete
column and character. -/
theorem get_sp500_tickers_normalized_witness :
    'B' ≠ '.' ∧ ¬ 'B'.isLower = true :=
  (get_sp500_tickers_normalized ["BRK.B"]).2.1 "BRK-B" (by decide) 'B' (by decide)

theorem Weights.cols_reset_norm (b : Bool) (f : Weights.Frame) :
    (Weights.reset_index (if b = true then Weights.normaliseWeights f else f)).cols
      = f.cols := by
  cases b <;> rfl

theorem Weights.rows_length_reset_norm (b : Bool) (f : Weights.Frame) :
    (Weights.reset_index (if b = true then Weights.normaliseWeights f else f)).rows.length
      = f.rows.length := by
  cases b
  · rfl
  · simp [Weights.reset_index, Weights.normaliseWeights]

/-- C7: for every spreadsheet with the expected column layout (one `Ticker`
and one `Weight` column), a successful extractor run has exactly the two
declared columns in order, at most `rows_to_read` rows (read after skipping
the `skip_first` leading rows), and a zero-based contiguous index; the
configured defaults are 4 and 504. -/
theorem load_spy_weights_shape
    (excelParse : String → List (List Weights.Cell)) (net : HttpResult) (normalise : Bool)
    (skip_first rows_to_read : Nat) (body : String) (out : Weights.Frame)
    (hd : Weights.download_excel net = .ok body)
    (ht : (Weights.read_excel (excelParse body) skip_first rows_to_read).cols.count "Ticker" = 1)
    (hw : (Weights.read_excel (excelParse body) skip_first rows_to_read).cols.count "Weight" = 1)
    (h : Weights.load_spy_weights excelParse net normalise skip_first rows_to_read = .ok out) :
    out.cols = ["Ticker", "Weight"] ∧
    out.rows.length ≤ rows_to_read ∧
    out.index = List.range out.rows.length ∧
    Weights.SKIP_FIRST = 4 ∧ Weights.ROWS_TO_READ = 504 := by
  obtain ⟨i, j, hsel⟩ := Weights.selectCols_layout ht hw
  obtain ⟨b2, sel2, hd2, hs2, hout2⟩ := Weights.load_spy_weights_ok_inv h
  rw [hd] at hd2
  injection hd2 with hb2
  subst hb2
  rw [hsel] at hs2
  injection hs2 with hs2
  subst hs2
  subst hout2
  refine ⟨?_, ?_, rfl, rfl, rfl⟩
  · rw [Weights.cols_reset_norm]
  · rw [Weights.rows_length_reset_norm]
    simp only [List.length_map]
    exact Weights.read_excel_rows_le _ _ _

/-- C7 (witness): the theorem applied to a concrete sheet with a banner of
four rows and two holdings. -/
theorem load_spy_weights_shape_witness :
    (Weights.Frame.mk ["Ticker", "Weight"] [0, 1]
      [[.str "AAPL", .num 7], [.str "MSFT", .num (mkRat 13 2)]]).rows.length ≤ 504 :=
  (load_spy_weights_shape (fun _ => goodSheet) (.resp 200 "xlsx") false 4 504 "xlsx"
    ⟨["Ticker", "Weight"], [0, 1], [[.str "AAPL", .num 7], [.str "MSFT", .num (mkRat 13 2)]]⟩
    (by decide) (by decide) (by decide) (by decide)).2.1

/-- C8: an absent expected column structure is fatal in both pipelines: a
price fetch that succeeds (status 200, no rate-limit marker) over a body
the parser cannot give `Date`/`Close` columns for raises the parser error
instead of being skipped, any such error aborts the whole price run before
a file is written, and the weightings pipeline ends in the fatal KeyError
when the literal `Ticker`/`Weight` labels are absent. -/
theorem parse_failure_fatal
    (fetch : String → Except PError (Option (List PriceRow))) (tickers : List String)
    (t : String) (e : PError) (hmem : t ∈ tickers) (he : fetch t = .error e)
    (parseCsv : String → Option (List (String × Rat))) (sym body : String)
    (hm : ¬ containsStr RATE_LIMIT_MARKER body) (hp : parseCsv body = none)
    (excelParse : String → List (List Weights.Cell)) (net : HttpResult) (wbody : String)
    (normalise : Bool) (skip_first rows_to_read : Nat)
    (hd : Weights.download_excel net = .ok wbody)
    (habs : "Ticker" ∉ (Weights.read_excel (excelParse wbody) skip_first rows_to_read).cols ∨
      "Weight" ∉ (Weights.read_excel (excelParse wbody) skip_first rows_to_read).cols) :
    fetch_stooq_csv parseCsv (.resp 200 body) sym = .error .missingColumns ∧
    (∃ e2, stooq_main fetch tickers = .error (.parseFailure e2)) ∧
    Weights.load_spy_weights excelParse net normalise skip_first rows_to_read
      = .error .keyError := by
  refine ⟨?_, ?_, Weights.load_spy_weights_keyError hd habs⟩
  · rw [fetch_stooq_success parseCsv hm sym, hp]
  · obtain ⟨e2, h2⟩ := build_dataset_parse_error hmem he
    refine ⟨e2, ?_⟩
    unfold stooq_main
    rw [h2]

/-- C8 (witness): a clean 200 response whose body lacks the expected
columns makes the whole price run abort. -/
theorem parse_failure_fatal_witness :
    ∃ e2, stooq_main badColumnsFetch ["AAA"] = .error (.parseFailure e2) :=
  (parse_failure_fatal badColumnsFetch ["AAA"] "AAA" .missingColumns (by decide) (by decide)
    (fun _ => none) "aaa" "no such columns" (by decide) rfl
    (fun _ => altNamesSheet) (.resp 200 "xlsx") "xlsx" false 4 504
    (by decide) (Or.inl (by decide))).2.1

/-- C9: the declared candidate column-name sets are never used for
matching: they are exactly the declared constants, and whenever the header
lacks the literal `Ticker` or `Weight` label the extraction fails with the
absent-column KeyError — even for the concrete sheet whose header carries
the candidate names `symbol` and `weight (%)`. -/
theorem candidate_columns_unused
    (excelParse : String → List (List Weights.Cell)) (net : HttpResult) (normalise : Bool)
    (skip_first rows_to_read : Nat) (body : String)
    (hd : Weights.download_excel net = .ok body)
    (habs : "Ticker" ∉ (Weights.read_excel (excelParse body) skip_first rows_to_read).cols ∨
      "Weight" ∉ (Weights.read_excel (excelParse body) skip_first rows_to_read).cols) :
    Weights.load_spy_weights excelParse net normalise skip_first rows_to_read
      = .error .keyError ∧
    Weights.TICKER_COL_CANDIDATES = ["ticker", "ticker symbol", "symbol"] ∧
    Weights.WEIGHT_COL_CANDIDATES = ["weight (%)", "weight", "weight_percent"] ∧
    "symbol" ∈ Weights.TICKER_COL_CANDIDATES ∧
    "weight (%)" ∈ Weights.WEIGHT_COL_CANDIDATES ∧
    Weights.load_spy_weights (fun _ => altNamesSheet) (.resp 200 "xlsx") false 4 504
      = .error .keyError := by
  refine ⟨Weights.load_spy_weights_keyError hd habs, rfl, rfl, by decide, by decide, by decide⟩

/-- C9 (witness): the theorem applied to the alternate-name sheet. -/
theorem candidate_columns_unused_witness :
    Weights.load_spy_weights (fun _ => altNamesSheet) (.resp 200 "bytes") true 4 504
      = .error .keyError :=
  (candidate_columns_unused (fun _ => altNamesSheet) (.resp 200 "bytes") true 4 504 "bytes"
    (by decide) (Or.inl (by decide))).1

/-- C10: duplicate-dropping and sorting run before the type narrowing of
step 6: any two rows of the fetched data that are distinct at full
precision both survive into the output (at distinct positions), even when
narrowing makes them coincide; the secondary sort compares the `Date`
column as a string; on ISO dates that string order is chronological order,
while on the lexicographically non-monotone `MM-DD-YYYY` layout a concrete
run produces output that is string-sorted but not chronological. -/
theorem dedup_before_narrowing_string_sort :
    (∀ (fetch : String → Except PError (Option (List PriceRow))) (tickers : List String)
      (frames : List (List PriceRow)) (out : List (Nat × NarrowRow)) (r1 r2 : PriceRow),
      collectFrames fetch tickers = .ok frames →
      build_dataset fetch tickers = .ok out →
      r1 ∈ frames.flatten → r2 ∈ frames.flatten → r1 ≠ r2 →
      ∃ i j, i ≠ j ∧ (i, narrowRow r1) ∈ out ∧ (j, narrowRow r2) ∈ out) ∧
    (∀ frames : List (List PriceRow),
      List.Pairwise (fun a b => strLt a.2.symbol b.2.symbol ∨
        (a.2.symbol = b.2.symbol ∧ strLe a.2.date b.2.date)) (postprocess frames)) ∧
    (∀ frames : List (List PriceRow),
      (∀ r ∈ frames.flatten, isIsoDate r.date = true) →
      List.Pairwise (fun a b => strLt a.2.symbol b.2.symbol ∨
        (a.2.symbol = b.2.symbol ∧ ymdLE (isoDateYMD a.2.date) (isoDateYMD b.2.date)))
        (postprocess frames)) ∧
    (build_dataset usDatesFetch ["AAA"] =
      .ok [(0, narrowRow ⟨"01-05-2024", 10, "AAA"⟩),
        (1, narrowRow ⟨"12-31-2023", 10, "AAA"⟩)] ∧
      strLt "01-05-2024" "12-31-2023" ∧
      ¬ ymdLE (usDateYMD "01-05-2024") (usDateYMD "12-31-2023")) := by
  refine ⟨?_, ?_, ?_, by decide, by decide, by decide⟩
  · intro fetch tickers frames out r1 r2 hcf hout h1 h2 hne
    obtain ⟨frames2, hcf2, hne2, hout2⟩ := build_dataset_ok_inv hout
    rw [hcf] at hcf2
    injection hcf2 with hfr
    subst hfr
    obtain ⟨i, hi⟩ := postprocess_covers h1
    obtain ⟨j, hj⟩ := postprocess_covers h2
    refine ⟨i, j, ?_, ?_, ?_⟩
    · intro hij
      subst hij
      exact hne (reset_fst_inj hi hj)
    · rw [hout2]
      exact List.mem_map_of_mem (fun p => (p.1, narrowRow p.2)) hi
    · rw [hout2]
      exact List.mem_map_of_mem (fun p => (p.1, narrowRow p.2)) hj
  · intro frames
    refine (postprocess_sorted frames).imp_of_mem ?_
    intro a b _ _ hab
    exact hab
  · intro frames hiso
    have hiso2 : ∀ p ∈ postprocess frames, isIsoDate p.2.date = true :=
      fun p hp => hiso _ (postprocess_mem_flatten hp)
    refine (postprocess_sorted frames).imp_of_mem ?_
    intro a b ha hb hab
    unfold rowKeyLE rowLE at hab
    rcases hab with h | ⟨he, hd⟩
    · exact Or.inl h
    · exact Or.inr ⟨he, (iso_strLe_iff (hiso2 a ha) (hiso2 b hb)).mp hd⟩

/-- C10 (witness): both full-precision rows of the float32-collision run
survive into the output, at distinct positions. -/
theorem dedup_before_narrowing_string_sort_witness :
    ∃ i j, i ≠ j ∧
      (i, narrowRow ⟨"2024-01-02", mkRat 33554432 1, "AAA"⟩) ∈
        [(0, (⟨2024001002, mkRat 33554432 1, "AAA"⟩ : NarrowRow)),
          (1, ⟨2024001002, mkRat 33554432 1, "AAA"⟩)] ∧
      (j, narrowRow ⟨"2024-01-02", mkRat 33554433 1, "AAA"⟩) ∈
        [(0, (⟨2024001002, mkRat 33554432 1, "AAA"⟩ : NarrowRow)),
          (1, ⟨2024001002, mkRat 33554432 1, "AAA"⟩)] :=
  dedup_before_narrowing_string_sort.1 collisionFetch ["AAA"]
    [[⟨"2024-01-02", mkRat 33554432 1, "AAA"⟩, ⟨"2024-01-02", mkRat 33554433 1, "AAA"⟩]]
    [(0, ⟨2024001002, mkRat 33554432 1, "AAA"⟩), (1, ⟨2024001002, mkRat 33554432 1, "AAA"⟩)]
    ⟨"2024-01-02", mkRat 33554432 1, "AAA"⟩ ⟨"2024-01-02", mkRat 33554433 1, "AAA"⟩
    (by decide) (by decide) (by decide) (by decide) (by decide)
